import Mathlib

/-!
Verification development for the quiz-booklet publisher (`app.py`).

The embedding models, over plain Lean data:
* the JSON value space and the Python-dict operations the merge engine uses
  (`merge_json_data`),
* the Python string primitives (`strip`, `upper`, `replace`, `split`, `in`)
  as functions on `List Char`,
* a small backtracking regular-expression engine mirroring Python `re`
  semantics (leftmost match, alternation order, greedy/lazy repetition,
  lookahead/lookbehind, word boundaries), used to embed the regexes of
  `format_question_text`, `smart_break_paragraphs`, `smart_highlight` and the
  `match_pattern` table detector of `create_elegant_pdf`.

Machine integers do not occur (Python ints are unbounded; ids are modelled as
`Int`).  Fallible code paths (Python exceptions caught by the `try/except` of
`merge_json_data`) are modelled with `Option`, `none` meaning "an exception
was raised and the function returned `[]`".
-/

namespace PdfApp

/-- JSON values as produced by `json.load`.  Numbers are modelled as integers
(the repository's data uses integer ids; floats are out of scope).  Python
`None` and JSON `null` are identified, matching `dict.get` returning `None`
for a missing key. -/
inductive Json where
  | null : Json
  | jbool : Bool → Json
  | jnum : Int → Json
  | jstr : String → Json
  | jobj : List (String × Json) → Json
  | jarr : List Json → Json

/-- Python truthiness (`bool(x)`) for JSON values: `None`, `False`, `0`, `""`,
`{}`, `[]` are falsy. -/
def Json.truthy : Json → Bool
  | .null => false
  | .jbool b => b
  | .jnum n => n != 0
  | .jstr s => !s.data.isEmpty
  | .jobj fs => !fs.isEmpty
  | .jarr xs => !xs.isEmpty

mutual

/-- Python `repr` of a JSON value (simplified: embedded quotes/backslashes in
strings are not escaped; the claims never evaluate `repr` on such strings). -/
def pyRepr : Json → String
  | .null => "None"
  | .jbool true => "True"
  | .jbool false => "False"
  | .jnum n => toString n
  | .jstr s => "\x27" ++ s ++ "\x27"
  | .jobj fs => "\x7b" ++ pyReprFields fs ++ "\x7d"
  | .jarr xs => "[" ++ pyReprElems xs ++ "]"

/-- Comma-separated `repr` of dict entries. -/
def pyReprFields : List (String × Json) → String
  | [] => ""
  | [(k, v)] => "\x27" ++ k ++ "\x27: " ++ pyRepr v
  | (k, v) :: rest => "\x27" ++ k ++ "\x27: " ++ pyRepr v ++ ", " ++ pyReprFields rest

/-- Comma-separated `repr` of list elements. -/
def pyReprElems : List Json → String
  | [] => ""
  | [x] => pyRepr x
  | x :: rest => pyRepr x ++ ", " ++ pyReprElems rest

end

/-- Python `str()` of a JSON value: the identity on strings, `repr` otherwise. -/
def pyStr : Json → String
  | .jstr s => s
  | j => pyRepr j

/-- Characters treated as whitespace by Python `str.strip` and `\s`
(ASCII fragment; the repository's data is ASCII). -/
def pyWsChar (c : Char) : Bool :=
  c == ' ' || c == '\t' || c == '\n' || c == '\r' || c == '\x0b' || c == '\x0c'

/-- Prepend `c` to an already trail-stripped list: onto the empty result a
whitespace `c` is itself trailing. -/
def consTrail (c : Char) : List Char → List Char
  | [] => if pyWsChar c then [] else [c]
  | r :: rs => c :: r :: rs

/-- Drop trailing whitespace characters from a character list. -/
def dropTrailWs : List Char → List Char
  | [] => []
  | c :: rest => consTrail c (dropTrailWs rest)

/-- Strip leading and trailing whitespace from a character list
(Python `str.strip`). -/
def stripL (l : List Char) : List Char :=
  dropTrailWs (l.dropWhile pyWsChar)

/-- Python `str.strip`. -/
def pyStrip (s : String) : String := String.mk (stripL s.data)

/-- Python `str.upper` (ASCII fragment, via `Char.toUpper`). -/
def pyUpper (s : String) : String := String.mk (s.data.map Char.toUpper)

/-- Replace every (non-overlapping, leftmost-first) occurrence of `sep` by
`repl`, as Python `str.replace`.  The fuel argument only drives structural
recursion; each step consumes at least one input character, so starting it at
the input length makes the exhausted case unreachable.  The empty-pattern
case (which Python treats specially) is never used by the repository and is
modelled as the identity. -/
def replaceGo (sep repl : List Char) : Nat → List Char → List Char
  | _, [] => []
  | 0, l => l
  | fuel + 1, c :: rest =>
    if !sep.isEmpty && sep.isPrefixOf (c :: rest) then
      repl ++ replaceGo sep repl fuel ((c :: rest).drop sep.length)
    else
      c :: replaceGo sep repl fuel rest

/-- Python `str.replace`. -/
def pyReplace (s pat rep : String) : String :=
  String.mk (replaceGo pat.data rep.data s.data.length s.data)

/-- Split on every (non-overlapping, leftmost-first) occurrence of `sep`,
as Python `str.split(sep)`.  Always returns at least one part; fuel as in
`replaceGo`. -/
def splitGo (sep : List Char) : Nat → List Char → List (List Char)
  | _, [] => [[]]
  | 0, l => [l]
  | fuel + 1, c :: rest =>
    if !sep.isEmpty && sep.isPrefixOf (c :: rest) then
      [] :: splitGo sep fuel ((c :: rest).drop sep.length)
    else
      match splitGo sep fuel rest with
      | [] => [[c]]
      | p :: ps => (c :: p) :: ps

/-- Python `s.split(sep)` on character lists. -/
def splitL (sep l : List Char) : List (List Char) := splitGo sep l.length l

/-- Python `s.split(sep)` on strings. -/
def pySplit (s sep : String) : List String := (splitL sep.data s.data).map String.mk

/-- Python substring containment `needle in hay` on character lists. -/
def containsL (sep : List Char) : List Char → Bool
  | [] => sep.isEmpty
  | c :: rest => sep.isPrefixOf (c :: rest) || containsL sep rest

/-- Python substring containment `needle in hay`. -/
def strContains (hay needle : String) : Bool := containsL needle.data hay.data

/-- Python `==` on the hashable JSON scalars used as dict keys.  Python
identifies `True` with `1` and `False` with `0`; strings and numbers never
compare equal across types. -/
def pyEq : Json → Json → Bool
  | .null, .null => true
  | .jstr a, .jstr b => a == b
  | .jnum a, .jnum b => a == b
  | .jbool a, .jbool b => a == b
  | .jbool a, .jnum b => (if a then (1 : Int) else 0) == b
  | .jnum a, .jbool b => a == (if b then (1 : Int) else 0)
  | _, _ => false

/-- A JSON value usable as a Python dict key (dicts and lists are
unhashable: using one as a key raises `TypeError`). -/
def hashableJson : Json → Bool
  | .jobj _ => false
  | .jarr _ => false
  | _ => true

/-- Python dict lookup on the fields of a parsed JSON object.  `json.load`
keeps the last duplicate key, hence the reversed search. -/
def objGet (fs : List (String × Json)) (k : String) : Option Json :=
  (fs.reverse.find? (fun p => p.1 == k)).map (·.2)

/-- Python `obj.get(k, d)` where `obj` is known to be a dict.  The non-object
case is unreachable at every use site (values of `ans_dict` are dicts by
construction) and defaults. -/
def jsonGetD (j : Json) (k : String) (d : Json) : Json :=
  match j with
  | .jobj fs => (objGet fs k).getD d
  | _ => d

/-- Python `a or b` (truthiness-based choice). -/
def pyOr (a b : Json) : Json := if a.truthy then a else b

/-- Embeds the dict comprehension `{item['id']: item for item in answers}` of
`merge_json_data`: every item must be a dict (`item['id']` raises `TypeError`
otherwise), must contain the key `id` (`KeyError` otherwise), and the id must
be hashable.  `none` models the raised exception. -/
def buildAnsDict : List Json → Option (List (Json × Json))
  | [] => some []
  | item :: rest =>
    match item with
    | .jobj fs =>
      match objGet fs "id" with
      | some v =>
        if hashableJson v then (buildAnsDict rest).map (fun d => (v, item) :: d)
        else none
      | none => none
    | _ => none

/-- Python `ans_dict.get(q_id, ...)`: in a dict comprehension a later item
overrides an earlier one with an equal key, hence the reversed search, with
keys compared by Python `==`. -/
def dictGetPy (d : List (Json × Json)) (k : Json) : Option Json :=
  (d.reverse.find? (fun p => pyEq p.1 k)).map (·.2)

/-- One merged record of `merge_json_data` (the dict appended to
`merged_data`); field `qid` embeds the `id` key. -/
structure QuizRecord where
  qid : Json
  question : Json
  options : Json
  source : Json
  answer_key : String
  explanation : Json

/-- Embeds `ans_obj.get('solution') or ans_obj.get('answer') or 'N/A'`. -/
def rawAnswer (ans_obj : Json) : Json :=
  pyOr (jsonGetD ans_obj "solution" .null)
    (pyOr (jsonGetD ans_obj "answer" .null) (.jstr "N/A"))

/-- Embeds `str(raw_ans).replace('(', '').replace(')', '').strip().upper()`. -/
def normalize_answer (ans_obj : Json) : String :=
  pyUpper (pyStrip (pyReplace (pyReplace (pyStr (rawAnswer ans_obj)) "(" "") ")" ""))

/-- One-character string. -/
def singletonStr (c : Char) : String := String.mk [c]

/-- Embeds the `raw_exp`/`final_exp` computation of `merge_json_data`.
Python `details += " ||TIPS|| ..."` succeeds when `details` is a string
(concatenation) or a list (extension by the characters); any other type with
truthy tips raises `TypeError`, modelled by `none`. -/
def explanation_of (ans_obj : Json) : Option Json :=
  match jsonGetD ans_obj "explanation" (.jstr "No explanation provided.") with
  | .jobj efs =>
    let details := (objGet efs "exp_details").getD (.jstr "")
    let tips := (objGet efs "important_tips").getD (.jstr "")
    if tips.truthy then
      match details with
      | .jstr d => some (.jstr (d ++ " ||TIPS|| " ++ pyStr tips))
      | .jarr xs =>
        some (.jarr (xs ++ (" ||TIPS|| " ++ pyStr tips).data.map (fun c => .jstr (singletonStr c))))
      | _ => none
    else some details
  | e => some (.jstr (pyStr e))

/-- The value `q.get('id')` of a question object (`None` when absent or when
the question is not a dict; the latter case raises before the id is read, and
the merge fails anyway). -/
def jsonIdOf (q : Json) : Json :=
  match q with
  | .jobj fs => (objGet fs "id").getD .null
  | _ => .null

/-- One iteration of the merge loop of `merge_json_data`: builds the merged
record for question `q`.  `none` models a raised exception (`q` is not a dict
so `q.get` raises `AttributeError`; unhashable id; tips appended to a
non-concatenable explanation). -/
def processQuestion (ansDict : List (Json × Json)) (q : Json) : Option QuizRecord :=
  match q with
  | .jobj fs =>
    let q_id := (objGet fs "id").getD .null
    if hashableJson q_id then
      let ans_obj := (dictGetPy ansDict q_id).getD (.jobj [])
      match explanation_of ans_obj with
      | some fe =>
        some { qid := q_id
               question := (objGet fs "question").getD (.jstr "")
               options := (objGet fs "options").getD (.jobj [])
               source := (objGet fs "source").getD (.jstr "")
               answer_key := normalize_answer ans_obj
               explanation := fe }
      | none => none
    else none
  | _ => none

/-- The `for q in questions` loop building `merged_data`. -/
def mergeLoop (ansDict : List (Json × Json)) : List Json → Option (List QuizRecord)
  | [] => some []
  | q :: rest =>
    match processQuestion ansDict q with
    | some r => (mergeLoop ansDict rest).map (fun l => r :: l)
    | none => none

/-- The Python sort key of a merged record: ints and bools share one
comparability class (`True == 1`), strings form another; `None`, dicts and
lists are not orderable. -/
def idSortKey : Json → Option (Int ⊕ String)
  | .jnum n => some (Sum.inl n)
  | .jbool b => some (Sum.inl (if b then 1 else 0))
  | .jstr s => some (Sum.inr s)
  | _ => none

/-- Sort key of a record (`lambda x: x['id']`). -/
def recKey (r : QuizRecord) : Option (Int ⊕ String) := idSortKey r.qid

/-- Boolean "key of `a` ≤ key of `b`" used by the embedded stable sort;
`false` on incomparable keys (that case is unreachable whenever the sort
succeeds). -/
def recLeB (a b : QuizRecord) : Bool :=
  match recKey a, recKey b with
  | some (Sum.inl x), some (Sum.inl y) => decide (x ≤ y)
  | some (Sum.inr x), some (Sum.inr y) => decide (x ≤ y)
  | _, _ => false

/-- Record has an int-class key. -/
def isIntKeyB (r : QuizRecord) : Bool :=
  match recKey r with
  | some (Sum.inl _) => true
  | _ => false

/-- Record has a string-class key. -/
def isStrKeyB (r : QuizRecord) : Bool :=
  match recKey r with
  | some (Sum.inr _) => true
  | _ => false

/-- Whether `merged_data.sort(key=lambda x: x['id'])` succeeds: a list of
length at most one performs no comparison; otherwise Python's sort compares
every element with some other, raising `TypeError` unless all keys lie in a
single comparability class. -/
def idsSortable : List QuizRecord → Bool
  | [] => true
  | [_] => true
  | a :: b :: t =>
    ((a :: b :: t).all fun r => (recKey r).isSome) &&
      (((a :: b :: t).all isIntKeyB) || ((a :: b :: t).all isStrKeyB))

/-- Propositional form of `recLeB`. -/
def recLe (a b : QuizRecord) : Prop := recLeB a b = true

instance : DecidableRel recLe := fun a b => Bool.decEq (recLeB a b) true

/-- Embeds `merged_data.sort(key=lambda x: x['id'])`: a stable ascending sort
by id when the ids are comparable, `TypeError` (i.e. `none`) otherwise. -/
def pySortById (l : List QuizRecord) : Option (List QuizRecord) :=
  if idsSortable l then some (List.insertionSort recLe l) else none

/-- Embeds lines 175-180 of `app.py`: a dict exposing `questions` yields that
value, a bare list is used as-is, anything else yields `[]`. -/
def loadQuestions : Json → Json
  | .jobj fs => if (objGet fs "questions").isSome then (objGet fs "questions").getD .null else .jarr []
  | .jarr xs => .jarr xs
  | _ => .jarr []

/-- Python iteration over a JSON value: lists yield elements, strings yield
one-character strings, dicts yield their keys; numbers, booleans and `None`
raise `TypeError` (`none`). -/
def pyIterate : Json → Option (List Json)
  | .jarr xs => some xs
  | .jstr s => some (s.data.map fun c => .jstr (singletonStr c))
  | .jobj fs => some (fs.map fun kv => .jstr kv.1)
  | _ => none

/-- The body of `merge_json_data` up to (and excluding) the `except` clause.
The `Option Json` inputs model `json.load`: `none` is an unparseable file.
A `none` result anywhere models the raised exception, caught below. -/
def merge_json_data_core (q_file a_file : Option Json) : Option (List QuizRecord) :=
  match q_file with
  | none => none
  | some q_raw =>
    match a_file with
    | none => none
    | some a_raw =>
      match pyIterate a_raw with
      | none => none
      | some ansItems =>
        match buildAnsDict ansItems with
        | none => none
        | some ansDict =>
          match pyIterate (loadQuestions q_raw) with
          | none => none
          | some qItems =>
            match mergeLoop ansDict qItems with
            | none => none
            | some recs => pySortById recs

/-- Embeds `merge_json_data`: on any exception the `except` clause reports the
error and returns the empty list. -/
def merge_json_data (q_file a_file : Option Json) : List QuizRecord :=
  (merge_json_data_core q_file a_file).getD []

/-- Embeds lines 326-328 of `create_elegant_pdf`: the explanation string split
into its main segment and (when the marker occurs) its tips segment. -/
def splitTips (s : String) : String × String :=
  let parts := pySplit s "||TIPS||"
  (parts.headD "", if strContains s "||TIPS||" then parts.getD 1 "" else "")

/-!
A small regular-expression abstract syntax and a backtracking matcher with
Python `re` semantics: alternatives are tried in written order, `star` with
`greedy := true` prefers the longer extension and with `greedy := false`
(lazy, Python `*?`) the shorter one, lookarounds are zero-width and atomic,
and scanning functions return the leftmost match.  Character classes carry
their membership test; `IGNORECASE` patterns are embedded with
case-insensitive classes.
-/

/-- Regular-expression syntax.  `grp` records a capture group, `look` is a
lookahead `(?=r)`, `lookb w r` a fixed-width lookbehind `(?<=r)` of width
`w`, `wordB` the boundary `\b`, `bos` the anchor `^` (no `MULTILINE` flag is
ever used) and `eos` the end anchor `\Z`. -/
inductive RE where
  | eps : RE
  | cls : (Char → Bool) → RE
  | seq : RE → RE → RE
  | alt : RE → RE → RE
  | star : Bool → RE → RE
  | grp : Nat → RE → RE
  | look : RE → RE
  | lookb : Nat → RE → RE
  | wordB : RE
  | bos : RE
  | eos : RE

/-- Captured group spans: group index, start offset, end offset. -/
abbrev Caps := List (Nat × Nat × Nat)

/-- Python `\w` (ASCII fragment). -/
def isWordCh (c : Char) : Bool := c.isAlphanum || c == '_'

/-- Whether position `i` of `cs` holds a word character. -/
def wordAt (cs : List Char) (i : Nat) : Bool :=
  match cs[i]? with
  | some c => isWordCh c
  | none => false

/-- Backtracking matcher in continuation-passing style.  `k` receives the
position and captures after `re` has matched; returning `none` from `k`
makes the matcher backtrack into `re`, which realises Python's ordered
alternation and greedy/lazy repetition.  The fuel bounds the recursion depth
only; every entry point passes enough for the patterns of this development
(depth is linear in pattern size plus consumed characters). -/
def reRun (cs : List Char) :
    Nat → RE → Nat → Caps → (Nat → Caps → Option (Nat × Caps)) → Option (Nat × Caps)
  | 0, _, _, _, _ => none
  | fuel + 1, re, pos, caps, k =>
    match re with
    | .eps => k pos caps
    | .bos => if pos = 0 then k pos caps else none
    | .eos => if pos = cs.length then k pos caps else none
    | .wordB =>
      let before := if pos = 0 then false else wordAt cs (pos - 1)
      if before != wordAt cs pos then k pos caps else none
    | .cls p =>
      match cs[pos]? with
      | some c => if p c then k (pos + 1) caps else none
      | none => none
    | .seq a b => reRun cs fuel a pos caps (fun p c => reRun cs fuel b p c k)
    | .alt a b => (reRun cs fuel a pos caps k) <|> (reRun cs fuel b pos caps k)
    | .star g r =>
      let stop := fun (_ : Unit) => k pos caps
      let go := fun (_ : Unit) => reRun cs fuel r pos caps (fun p c =>
        if p = pos then none else reRun cs fuel (.star g r) p c k)
      if g then (go ()) <|> (stop ()) else (stop ()) <|> (go ())
    | .grp i r => reRun cs fuel r pos caps (fun p c => k p ((i, pos, p) :: c))
    | .look r =>
      match reRun cs fuel r pos caps (fun p c => some (p, c)) with
      | some (_, c) => k pos c
      | none => none
    | .lookb w r =>
      if w ≤ pos then
        match reRun cs fuel r (pos - w) caps
            (fun p c => if p = pos then some (p, c) else none) with
        | some (_, c) => k pos c
        | none => none
      else none

/-- Fuel passed to `reRun` at every entry point; generous for the pattern
sizes of this development. -/
def runFuel (cs : List Char) : Nat := 16 * cs.length + 4000

/-- Attempt a match anchored at `pos` (Python `re` tries each start position
in turn); returns end position and captures. -/
def reMatchAt (cs : List Char) (re : RE) (pos : Nat) : Option (Nat × Caps) :=
  reRun cs (runFuel cs) re pos [] (fun p c => some (p, c))

/-- Leftmost match at or after `pos` (`re.search` semantics); returns start,
end and captures.  The fuel counts remaining start positions. -/
def reSearchFrom (cs : List Char) (re : RE) : Nat → Nat → Option (Nat × Nat × Caps)
  | 0, _ => none
  | gas + 1, pos =>
    match reMatchAt cs re pos with
    | some (e, caps) => some (pos, e, caps)
    | none => if pos < cs.length then reSearchFrom cs re gas (pos + 1) else none

/-- Leftmost match of `re` in `cs` (`re.search`). -/
def reSearch (cs : List Char) (re : RE) : Option (Nat × Nat × Caps) :=
  reSearchFrom cs re (cs.length + 1) 0

/-- All non-overlapping matches scanning left to right (`re.finditer`);
after a match the scan resumes at its end (one past it for an empty match). -/
def reFindFrom (cs : List Char) (re : RE) : Nat → Nat → List (Nat × Nat × Caps)
  | 0, _ => []
  | gas + 1, pos =>
    match reSearchFrom cs re (cs.length + 1 - pos) pos with
    | some (s, e, caps) =>
      (s, e, caps) :: reFindFrom cs re gas (if e = s then e + 1 else e)
    | none => []

/-- All matches of `re` in `cs`. -/
def reFindAll (cs : List Char) (re : RE) : List (Nat × Nat × Caps) :=
  reFindFrom cs re (cs.length + 2) 0

/-- Text of capture group `i` (the most recent span recorded for `i`;
`""` when the group did not participate, as Python `findall` reports it). -/
def capStr (cs : List Char) (caps : Caps) (i : Nat) : String :=
  match caps.find? (fun t => t.1 == i) with
  | some (_, st, en) => String.mk ((cs.drop st).take (en - st))
  | none => ""

/-- Python `re.sub`: copy text verbatim between matches, replace each match
by the template instantiated with its captures.  After an empty match the
current character is copied and the scan advances by one.  The fuel counts
scan positions. -/
def reSubFrom (cs : List Char) (re : RE) (tmpl : (Nat → String) → String) :
    Nat → Nat → String
  | 0, _ => ""
  | gas + 1, pos =>
    match reMatchAt cs re pos with
    | some (e, caps) =>
      let rep := tmpl (capStr cs caps)
      if e = pos then
        rep ++ (match cs[pos]? with
                | some c => singletonStr c
                | none => "") ++ reSubFrom cs re tmpl gas (pos + 1)
      else rep ++ reSubFrom cs re tmpl gas e
    | none =>
      match cs[pos]? with
      | some c => singletonStr c ++ reSubFrom cs re tmpl gas (pos + 1)
      | none => ""

/-- Python `re.sub` on strings. -/
def reSub (re : RE) (tmpl : (Nat → String) → String) (s : String) : String :=
  reSubFrom s.data re tmpl (s.data.length + 2) 0

/-- Greedy `r+`. -/
def rePlus (r : RE) : RE := .seq r (.star true r)

/-- Greedy `r?`. -/
def reOpt (r : RE) : RE := .alt r .eps

/-- Case-sensitive literal. -/
def lit (s : String) : RE :=
  s.data.foldr (fun c acc => .seq (.cls (fun x => x == c)) acc) .eps

/-- Case-insensitive literal (`IGNORECASE`). -/
def litIC (s : String) : RE :=
  s.data.foldr (fun c acc => .seq (.cls (fun x => x.toLower == c.toLower)) acc) .eps

/-! Character classes used by the embedded patterns. -/

/-- Class `[IVX]`. -/
def romanUC (c : Char) : Bool := c == 'I' || c == 'V' || c == 'X'

/-- Class `[ivx]`. -/
def romanLC (c : Char) : Bool := c == 'i' || c == 'v' || c == 'x'

/-- Class `[ivxIVX]`. -/
def romanAny (c : Char) : Bool := romanUC c || romanLC c

/-- Class `\d`. -/
def digitCh (c : Char) : Bool := c.isDigit

/-- Class `[a-zA-Z]` (also `[A-Z]` under `IGNORECASE`). -/
def asciiLetter (c : Char) : Bool := c.isAlpha

/-- Class `[\.\)]`. -/
def dotParen (c : Char) : Bool := c == '.' || c == ')'

/-- Class `[IVX\d]` under `IGNORECASE`. -/
def romanDigitIC (c : Char) : Bool := romanAny c || c.isDigit

/-- Class `[a-d]` under `IGNORECASE`. -/
def adIC (c : Char) : Bool := 'a' ≤ c.toLower && c.toLower ≤ 'd'

/-- Class `[a-z ]` under `IGNORECASE`. -/
def azSpaceIC (c : Char) : Bool := c == ' ' || c.isAlpha

/-- Class `[.!?]`. -/
def sentEnd (c : Char) : Bool := c == '.' || c == '!' || c == '?'

/-- The bullet class of `smart_break_paragraphs` line 70.  The source file
stores the intended `•` and `➢` as the mojibake characters
U+201A, U+00C4, U+00A2 and U+201A, U+00FB, U+00A2, so the class is literally
`[‚Ä¢\-\*û]` as a character set. -/
def bulletCh (c : Char) : Bool :=
  c == '‚' || c == 'Ä' || c == '¢' || c == '-' || c == '*' || c == 'û'

/-- Greedy `\s+`. -/
def wsPlus : RE := rePlus (.cls pyWsChar)

/-- Non-capturing `[IVX]+|\d+|[A-Z]` as it appears in `match_pattern`
(alternatives in written order, `+` greedy). -/
def markerRE : RE :=
  .alt (rePlus (.cls romanUC)) (.alt (rePlus (.cls digitCh)) (.cls Char.isUpper))

/-- The table-row regex of `create_elegant_pdf` line 259 (compiled with
`re.DOTALL`, so `.` matches every character):
`(?:^|\s)([IVX]+|\d+|[A-Z])[\.\)]\s+(.*?)\s+-\s+(.*?)(?=\s(?:[IVX]+|\d+|[A-Z])[\.\)]|\Z)`. -/
def match_pattern : RE :=
  .seq (.alt .bos (.cls pyWsChar)) <|
  .seq (.grp 1 markerRE) <|
  .seq (.cls dotParen) <|
  .seq wsPlus <|
  .seq (.grp 2 (.star false (.cls fun _ => true))) <|
  .seq wsPlus <|
  .seq (.cls (· == '-')) <|
  .seq wsPlus <|
  .seq (.grp 3 (.star false (.cls fun _ => true))) <|
  .look (.alt (.seq (.cls pyWsChar) (.seq markerRE (.cls dotParen))) .eos)

/-- Group tuples of `match_pattern.findall(text)`. -/
def matchFindAll (s : String) : List (String × String × String) :=
  (reFindAll s.data match_pattern).map fun m =>
    (capStr s.data m.2.2 1, capStr s.data m.2.2 2, capStr s.data m.2.2 3)

/-- Start offset of the leftmost `match_pattern` match
(`re.search(match_pattern, raw_q_text).start()`), `0` when there is none
(that case is only used under a non-empty `findall`). -/
def matchSearchStart (s : String) : Nat :=
  match reSearch s.data match_pattern with
  | some (st, _, _) => st
  | none => 0

/-- Pattern `(\s)(\d+\.\s+[A-Z])` of `format_question_text`. -/
def patternNum : RE :=
  .seq (.grp 1 (.cls pyWsChar)) <|
  .grp 2 (.seq (rePlus (.cls digitCh)) <|
          .seq (.cls (· == '.')) <|
          .seq wsPlus (.cls Char.isUpper))

/-- Pattern `(Assertion|Reason)` of `format_question_text`. -/
def patternAR : RE := .grp 1 (.alt (lit "Assertion") (lit "Reason"))

/-- Embeds `format_question_text` (lines 14-30): newline markup before
numbered statements and Assertion/Reason keywords. -/
def format_question_text (text : String) : String :=
  if text = "" then ""
  else
    reSub patternAR (fun g => "<br/><b>" ++ g 1 ++ "</b>")
      (reSub patternNum (fun g => "<br/>" ++ g 2) text)

/-- The cue-word check of `create_elegant_pdf` line 273:
`"Match" in raw_q_text or "List" in raw_q_text or "pairs" in raw_q_text`. -/
def hasCue (s : String) : Bool :=
  strContains s "Match" || strContains s "List" || strContains s "pairs"

/-- The outro markers of `clean_table_row`. -/
def split_markers : List String :=
  ["How many", "Select the", "Which of", "Consider the", "In the context", "Select correct"]

/-- Split at the first occurrence of `sep`, Python `s.split(sep, 1)`:
the part before and the part after the separator. -/
def splitFirst (s sep : String) : String × String :=
  match splitL sep.data s.data with
  | [] => (s, "")
  | p :: ps =>
    (String.mk p, String.intercalate sep (ps.map String.mk))

/-- Split at the last newline, Python `s.rsplit('\n', 1)`. -/
def rsplitNL (s : String) : String × String :=
  match (splitL ['\n'] s.data).map String.mk with
  | [] => (s, "")
  | p :: ps =>
    match (p :: ps).reverse with
    | [] => (s, "")
    | lastPart :: frontRev =>
      (String.intercalate "\n" frontRev.reverse, lastPart)

/-- Embeds `clean_table_row` (lines 32-52): extract an outro question that got
merged into the last table cell. -/
def clean_table_row (right_text : String) : String × String :=
  match split_markers.find? (fun m => strContains right_text m) with
  | some marker =>
    let parts := splitFirst right_text marker
    (pyStrip parts.1, marker ++ parts.2)
  | none =>
    if strContains right_text "\n" then
      let parts := rsplitNL right_text
      if parts.2.data.length > 5 &&
          (match parts.2.data.head? with
           | some c => c.isUpper
           | none => false) then
        (pyStrip parts.1, pyStrip parts.2)
      else (right_text, "")
    else (right_text, "")

/-- The `(marker, left, right)` content triples of the rendered table (lines
284-294): every right cell is stripped, and the last one is additionally run
through `clean_table_row` (first component). -/
def tableTriples (s : String) : List (String × String × String) :=
  let ms := matchFindAll s
  ms.enum.map fun mi =>
    let right := pyStrip mi.2.2.2
    if mi.1 = ms.length - 1 then (mi.2.1, mi.2.2.1, (clean_table_row right).1)
    else (mi.2.1, mi.2.2.1, right)

/-- The recovered outro text rendered after the table (from the last row). -/
def tableOutro (s : String) : String :=
  match (matchFindAll s).getLast? with
  | some m => (clean_table_row (pyStrip m.2.2)).2
  | none => ""

/-- The intro text rendered above the table: the text before the first
regex match, stripped, then formatted when non-empty (lines 274-278). -/
def tableIntro (s : String) : String :=
  let intro := pyStrip (String.mk (s.data.take (matchSearchStart s)))
  if intro = "" then "" else format_question_text intro

/-- The question block produced for a record's question text: either the
match-pairs table (with intro and outro) or a plain formatted paragraph,
as decided by lines 271-312 of `create_elegant_pdf`. -/
inductive QBlock where
  | table : String → List (String × String × String) → String → QBlock
  | plain : String → QBlock
deriving DecidableEq

/-- The table-or-paragraph decision of `create_elegant_pdf`:
`if table_matches and ("Match" in ... or "List" in ... or "pairs" in ...)`. -/
def question_block (s : String) : QBlock :=
  if !(matchFindAll s).isEmpty && hasCue s then
    .table (tableIntro s) (tableTriples s) (tableOutro s)
  else
    .plain (format_question_text s)

/-! Embedding of `smart_break_paragraphs` (lines 54-130). -/

/-- Strict marker 1: bullets `[<bullet chars>]\s+`. -/
def strictBullet : RE := .seq (.cls bulletCh) wsPlus

/-- Strict marker 2: `\((?:[a-zA-Z]|[ivxIVX]+|\d+)\)` (alternatives in
written order). -/
def strictParen : RE :=
  .seq (.cls (· == '(')) <|
  .seq (.alt (.cls asciiLetter) (.alt (rePlus (.cls romanAny)) (rePlus (.cls digitCh)))) <|
  (.cls (· == ')'))

/-- Strict marker 3: `\b[ivx]+\.\s+`. -/
def strictRoman : RE :=
  .seq .wordB (.seq (rePlus (.cls romanLC)) (.seq (.cls (· == '.')) wsPlus))

/-- One strict-marker pass: `re.sub(f'({p})', r'<SPLIT>\1', text)`. -/
def subStrict (p : RE) (text : String) : String :=
  reSub (.grp 1 p) (fun g => "<SPLIT>" ++ g 1) text

/-- Conditional uppercase-marker pattern
`(?:^|(?<=[.!?]\s))([IVX]+|[A-Z])\.\s+` (the lookbehind has fixed width 2). -/
def condRE : RE :=
  .seq (.alt .bos (.lookb 2 (.seq (.cls sentEnd) (.cls pyWsChar)))) <|
  .seq (.grp 1 (.alt (rePlus (.cls romanUC)) (.cls Char.isUpper))) <|
  .seq (.cls (· == '.')) wsPlus

/-- Conditional pass: the replacement `<SPLIT>\1. ` normalises the matched
whitespace run to a single space. -/
def subConditional (text : String) : String :=
  reSub condRE (fun g => "<SPLIT>" ++ g 1 ++ ". ") text

/-- Break keyword `Pair [IVX\d]+ is (?:in)?correct:?` (`IGNORECASE`). -/
def breakPair : RE :=
  .seq (litIC "Pair ") <| .seq (rePlus (.cls romanDigitIC)) <| .seq (litIC " is ") <|
  .seq (reOpt (litIC "in")) <| .seq (litIC "correct") (reOpt (.cls (· == ':')))

/-- Break keyword `Statement [IVX\d]+ is (?:in)?correct:?` (`IGNORECASE`). -/
def breakStatement : RE :=
  .seq (litIC "Statement ") <| .seq (rePlus (.cls romanDigitIC)) <| .seq (litIC " is ") <|
  .seq (reOpt (litIC "in")) <| .seq (litIC "correct") (reOpt (.cls (· == ':')))

/-- Break keyword `Option [a-d] is (?:in)?correct:?` (`IGNORECASE`). -/
def breakOption : RE :=
  .seq (litIC "Option ") <| .seq (.cls adIC) <| .seq (litIC " is ") <|
  .seq (reOpt (litIC "in")) <| .seq (litIC "correct") (reOpt (.cls (· == ':')))

/-- Break keyword `\b[A-Z][a-zA-Z]+:` — under `IGNORECASE` the leading class
matches any letter. -/
def breakDefHeader : RE :=
  .seq .wordB (.seq (.cls asciiLetter) (.seq (rePlus (.cls asciiLetter)) (.cls (· == ':'))))

/-- Trimmed non-empty user break keys, each matched as a case-insensitive
literal (`re.escape(key.strip())` with `IGNORECASE`). -/
def userKeyREs (keys : List String) : List RE :=
  (keys.filter (fun k => !(pyStrip k).data.isEmpty)).map (fun k => litIC (pyStrip k))

/-- Ordered alternation of a non-empty pattern list (association is
irrelevant for ordered choice; order is preserved). -/
def altList : List RE → RE
  | [] => .eps
  | r :: rs => rs.foldl (fun a b => RE.alt a b) r

/-- The combined forced-break pass (lines 89-106): the default keywords in
source order followed by the user keys, the whole alternation wrapped in
group 1 (`rf'({combined_pattern})'`), replacement `<SPLIT>\1`.  The inner
per-alternative groups of the source are not referenced by the replacement
and are not modelled. -/
def subBreakKeywords (keys : List String) (text : String) : String :=
  reSub (.grp 1 (altList ([breakPair, breakStatement, breakOption,
      litIC "Assertion", litIC "Reason", breakDefHeader] ++ userKeyREs keys)))
    (fun g => "<SPLIT>" ++ g 1) text

/-- Specialised embedding of `re.split(r'(?<=[.!?])\s+', segment)`: walking
the characters, a whitespace character preceded by `.`, `!` or `?` starts a
delimiter; the greedy `\s+` consumes the maximal whitespace run, and the
scan resumes after it (no new match can begin inside the run).  `prev` is
the previous character; at the start of input the lookbehind cannot match,
which the non-sentence-ending sentinel `'\x00'` realises. -/
def sentGo (prev : Char) : List Char → List (List Char)
  | [] => [[]]
  | c :: rest =>
    if sentEnd prev && pyWsChar c then
      [] :: sentGo ' ' (rest.dropWhile pyWsChar)
    else
      match sentGo c rest with
      | [] => [[c]]
      | p :: ps => (c :: p) :: ps
termination_by l => l.length
decreasing_by
  · simp only [List.length_cons]
    exact Nat.lt_succ_of_le ((List.dropWhile_sublist pyWsChar).length_le)
  · simp

/-- Sentence split of a segment. -/
def sentSplit (l : List Char) : List (List Char) := sentGo '\x00' l

/-- The sentence-accumulation loop (lines 120-128): append each sentence plus
a space to the running chunk, flush (stripped) when the chunk exceeds the
maximum, flush the non-empty remainder at the end. -/
def chunkLoop (maxc : Nat) : List (List Char) → List Char → List (List Char)
  | [], chunk => if chunk.isEmpty then [] else [stripL chunk]
  | s :: rest, chunk =>
    let chunk2 := chunk ++ s ++ [' ']
    if chunk2.length > maxc then stripL chunk2 :: chunkLoop maxc rest []
    else chunkLoop maxc rest chunk2

/-- Per-segment processing (lines 112-128): strip, drop empty, keep short
segments whole, re-flow long ones sentence by sentence. -/
def processSegs (maxc : Nat) : List (List Char) → List (List Char)
  | [] => []
  | seg :: rest =>
    let s := stripL seg
    if s.isEmpty then processSegs maxc rest
    else if s.length < maxc then s :: processSegs maxc rest
    else chunkLoop maxc (sentSplit s) [] ++ processSegs maxc rest

/-- The internal paragraph-break marker. -/
def splitMarkerL : List Char := "<SPLIT>".data

/-- Embeds `smart_break_paragraphs` (lines 54-130): the three strict-marker
passes, the conditional-marker pass and the keyword pass in source order,
then splitting on `<SPLIT>` and per-segment processing.  `user_break_keys =
[]` models the Python default `None`. -/
def smart_break_paragraphs (text : String) (max_chars : Nat)
    (user_break_keys : List String) : List String :=
  if text = "" then []
  else
    let t1 := subStrict strictBullet text
    let t2 := subStrict strictParen t1
    let t3 := subStrict strictRoman t2
    let t4 := subConditional t3
    let t5 := subBreakKeywords user_break_keys t4
    (processSegs max_chars (splitL splitMarkerL t5.data)).map String.mk

/-! Embedding of `smart_highlight` (lines 132-162). -/

/-- Highlight pattern `Option [a-d] is [a-z ]*correct:?` (`IGNORECASE`). -/
def hlOption : RE :=
  .seq (litIC "Option ") <| .seq (.cls adIC) <| .seq (litIC " is ") <|
  .seq (.star true (.cls azSpaceIC)) <| .seq (litIC "correct") (reOpt (.cls (· == ':')))

/-- Highlight pattern `Statement \d+ is [a-z ]*correct:?` (`IGNORECASE`). -/
def hlStatement : RE :=
  .seq (litIC "Statement ") <| .seq (rePlus (.cls digitCh)) <| .seq (litIC " is ") <|
  .seq (.star true (.cls azSpaceIC)) <| .seq (litIC "correct") (reOpt (.cls (· == ':')))

/-- Highlight pattern `Pair [IVX\d]+ is [a-z ]*correct:?` (`IGNORECASE`). -/
def hlPairCorrect : RE :=
  .seq (litIC "Pair ") <| .seq (rePlus (.cls romanDigitIC)) <| .seq (litIC " is ") <|
  .seq (.star true (.cls azSpaceIC)) <| .seq (litIC "correct") (reOpt (.cls (· == ':')))

/-- Highlight pattern `Pair [IVX\d]+ is [a-z ]*incorrect:?` (`IGNORECASE`). -/
def hlPairIncorrect : RE :=
  .seq (litIC "Pair ") <| .seq (rePlus (.cls romanDigitIC)) <| .seq (litIC " is ") <|
  .seq (.star true (.cls azSpaceIC)) <| .seq (litIC "incorrect") (reOpt (.cls (· == ':')))

/-- Highlight pattern `\b\d{4}\b` (years). -/
def hlYear : RE :=
  .seq .wordB <| .seq (.cls digitCh) <| .seq (.cls digitCh) <| .seq (.cls digitCh) <|
  .seq (.cls digitCh) .wordB

/-- Highlight keyword `Article \d+` (`IGNORECASE`). -/
def hlArticle : RE := .seq (litIC "Article ") (rePlus (.cls digitCh))

/-- Highlight keyword `Section \d+` (`IGNORECASE`). -/
def hlSection : RE := .seq (litIC "Section ") (rePlus (.cls digitCh))

/-- Highlight keyword `Schedule \d+` (`IGNORECASE`). -/
def hlSchedule : RE := .seq (litIC "Schedule ") (rePlus (.cls digitCh))

/-- Highlight keyword `Amendment` (`IGNORECASE`). -/
def hlAmendment : RE := litIC "Amendment"

/-- Highlight keyword `Act \d{4}` (`IGNORECASE`). -/
def hlAct : RE :=
  .seq (litIC "Act ") <| .seq (.cls digitCh) <| .seq (.cls digitCh) <|
  .seq (.cls digitCh) (.cls digitCh)

/-- Definition-header pattern `(\b[A-Z][a-zA-Z]+:)` — this second pass of
`smart_highlight` is case-sensitive (no `IGNORECASE` flag). -/
def hlDefColor : RE :=
  .seq .wordB (.seq (.cls Char.isUpper) (.seq (rePlus (.cls asciiLetter)) (.cls (· == ':'))))

/-- Embeds `smart_highlight` (lines 132-162): each built-in pattern then each
trimmed non-empty user key wraps its matches in `<b>...</b>` (all
`IGNORECASE`), then the case-sensitive definition-header pass recolours
`Word:` headers.  `user_highlight_keys = []` models the default `None`. -/
def smart_highlight (text : String) (user_highlight_keys : List String) : String :=
  if text = "" then ""
  else
    let pats := [hlOption, hlStatement, hlPairCorrect, hlPairIncorrect, hlYear,
                 hlArticle, hlSection, hlSchedule, hlAmendment, hlAct] ++
                userKeyREs user_highlight_keys
    let t := pats.foldl
      (fun acc p => reSub (.grp 1 p) (fun g => "<b>" ++ g 1 ++ "</b>") acc) text
    reSub (.grp 1 hlDefColor)
      (fun g => "<b><font color=\"#800000\">" ++ g 1 ++ "</font></b>") t

/-! Helper lemmas about the embedded Python string primitives. -/

theorem data_mk (l : List Char) : (String.mk l).data = l := rfl

theorem mk_eq_empty_iff (l : List Char) : String.mk l = "" ↔ l = [] := by
  constructor
  · intro h
    have := congrArg String.data h
    simpa using this
  · intro h
    rw [h]

theorem dropTrailWs_getLast_not_ws :
    ∀ (l : List Char) (c : Char), (dropTrailWs l).getLast? = some c → pyWsChar c = false := by
  intro l
  induction l with
  | nil => intro c h; simp [dropTrailWs] at h
  | cons a t ih =>
    intro c h
    rw [dropTrailWs] at h
    cases hdt : dropTrailWs t with
    | nil =>
      rw [hdt] at h
      cases hws : pyWsChar a with
      | true => simp [consTrail, hws] at h
      | false =>
        simp [consTrail, hws] at h
        exact h ▸ hws
    | cons r rs =>
      rw [hdt] at h
      simp only [consTrail, List.getLast?_cons_cons] at h
      exact ih c (hdt ▸ h)

theorem dropTrailWs_head? :
    ∀ (l : List Char) (c : Char), (dropTrailWs l).head? = some c → l.head? = some c := by
  intro l
  cases l with
  | nil => intro c h; simp [dropTrailWs] at h
  | cons a t =>
    intro c h
    rw [dropTrailWs] at h
    cases hdt : dropTrailWs t with
    | nil =>
      rw [hdt] at h
      cases hws : pyWsChar a with
      | true => simp [consTrail, hws] at h
      | false =>
        simp [consTrail, hws] at h
        simp [h]
    | cons r rs =>
      rw [hdt] at h
      simp only [consTrail, List.head?_cons, Option.some.injEq] at h
      simp [h]

theorem dropTrailWs_idem : ∀ (l : List Char), dropTrailWs (dropTrailWs l) = dropTrailWs l := by
  intro l
  induction l with
  | nil => simp [dropTrailWs]
  | cons a t ih =>
    rw [dropTrailWs]
    cases hdt : dropTrailWs t with
    | nil =>
      cases hws : pyWsChar a with
      | true => simp [consTrail, hws, dropTrailWs]
      | false => simp [consTrail, hws, dropTrailWs]
    | cons r rs =>
      have ih2 : dropTrailWs (r :: rs) = r :: rs := by
        rw [← hdt, ih, hdt]
      simp only [consTrail]
      rw [dropTrailWs, ih2]
      simp only [consTrail]

theorem dropTrailWs_ne_nil :
    ∀ (l : List Char) (c : Char), c ∈ l → pyWsChar c = false → dropTrailWs l ≠ [] := by
  intro l
  induction l with
  | nil => intro c h; simp at h
  | cons a t ih =>
    intro c hmem hc
    rw [dropTrailWs]
    cases hdt : dropTrailWs t with
    | nil =>
      rcases List.mem_cons.mp hmem with h | h
      · subst h
        simp [consTrail, hc]
      · exact absurd hdt (ih c h hc)
    | cons r rs => simp [consTrail]

theorem dropWhile_head_not_ws (l : List Char) (c : Char)
    (h : (l.dropWhile pyWsChar).head? = some c) : pyWsChar c = false := by
  have hd := List.head?_dropWhile_not pyWsChar l
  rw [h] at hd
  exact hd

theorem mem_dropWhile_of_not_ws (l : List Char) (c : Char)
    (hmem : c ∈ l) (hc : pyWsChar c = false) : c ∈ l.dropWhile pyWsChar := by
  have hsplit := List.takeWhile_append_dropWhile pyWsChar l
  rw [← hsplit] at hmem
  rcases List.mem_append.mp hmem with h | h
  · exact absurd (List.mem_takeWhile_imp h) (by simp [hc])
  · exact h

theorem stripL_getLast_not_ws (l : List Char) (c : Char)
    (h : (stripL l).getLast? = some c) : pyWsChar c = false :=
  dropTrailWs_getLast_not_ws _ c h

theorem stripL_head_not_ws (l : List Char) (c : Char)
    (h : (stripL l).head? = some c) : pyWsChar c = false :=
  dropWhile_head_not_ws l c (dropTrailWs_head? _ c h)

theorem stripL_idem (l : List Char) : stripL (stripL l) = stripL l := by
  unfold stripL
  have hdw : (dropTrailWs (l.dropWhile pyWsChar)).dropWhile pyWsChar =
      dropTrailWs (l.dropWhile pyWsChar) := by
    cases hx : dropTrailWs (l.dropWhile pyWsChar) with
    | nil => simp
    | cons a t =>
      have ha : pyWsChar a = false := by
        have : (dropTrailWs (l.dropWhile pyWsChar)).head? = some a := by simp [hx]
        exact dropWhile_head_not_ws l a (dropTrailWs_head? _ a this)
      simp [List.dropWhile_cons, ha]
  rw [hdw, dropTrailWs_idem]

theorem stripL_ne_nil (l : List Char) (c : Char)
    (hmem : c ∈ l) (hc : pyWsChar c = false) : stripL l ≠ [] :=
  dropTrailWs_ne_nil _ c (mem_dropWhile_of_not_ws l c hmem hc) hc

theorem pyStrip_mk (l : List Char) : pyStrip (String.mk l) = String.mk (stripL l) := rfl

theorem getLast?_mem_of_ne_nil {α : Type} (l : List α) (h : l ≠ []) :
    ∃ c, l.getLast? = some c ∧ c ∈ l := by
  cases hg : l.getLast? with
  | none => exact absurd (List.getLast?_eq_none_iff.mp hg) h
  | some c => exact ⟨c, rfl, List.mem_of_getLast?_eq_some hg⟩

theorem getLast?_cons_of_ne_nil {α : Type} (c : α) (l : List α) (h : l ≠ []) :
    (c :: l).getLast? = l.getLast? := by
  cases l with
  | nil => exact absurd rfl h
  | cons d ds => exact List.getLast?_cons_cons

theorem getLast?_dropWhile_ws (l : List Char) (h : l.dropWhile pyWsChar ≠ []) :
    (l.dropWhile pyWsChar).getLast? = l.getLast? := by
  conv_rhs => rw [← List.takeWhile_append_dropWhile pyWsChar l]
  rw [List.getLast?_append]
  obtain ⟨c, hc, _⟩ := getLast?_mem_of_ne_nil _ h
  rw [hc]
  rfl

theorem sentGo_parts (prev : Char) (l : List Char) :
    (∀ c, l.getLast? = some c → pyWsChar c = false) →
    ∃ h t, sentGo prev l = h :: t ∧
      (∀ p ∈ t, p ≠ [] ∧ ∀ c, p.head? = some c → pyWsChar c = false) ∧
      ((∀ c, l.head? = some c → pyWsChar c = false) → l ≠ [] →
        h ≠ [] ∧ ∀ c, h.head? = some c → pyWsChar c = false) := by
  induction prev, l using sentGo.induct with
  | case1 prev =>
    intro _
    refine ⟨[], [], by rw [sentGo], by simp, ?_⟩
    intro _ hne
    exact absurd rfl hne
  | case2 prev c rest hcond ih =>
    intro hlast
    have hwc : pyWsChar c = true := by
      simp only [Bool.and_eq_true] at hcond
      exact hcond.2
    have hrestne : rest ≠ [] → (c :: rest).getLast? = rest.getLast? :=
      getLast?_cons_of_ne_nil c rest
    have hrne : rest.dropWhile pyWsChar ≠ [] := by
      intro hre
      have hall : ∀ x ∈ rest, pyWsChar x = true := by
        intro x hx
        have := List.dropWhile_eq_nil_iff.mp hre x hx
        simpa using this
      cases hr2 : rest with
      | nil =>
        have := hlast c (by rw [hr2]; rfl)
        rw [hwc] at this
        exact Bool.true_eq_false.mp this
      | cons d ds =>
        obtain ⟨e, he, hmem⟩ := getLast?_mem_of_ne_nil rest (by rw [hr2]; simp)
        have hws := hall e hmem
        have := hlast e (by rw [hrestne (by rw [hr2]; simp)]; exact he)
        rw [hws] at this
        exact Bool.true_eq_false.mp this
    have hrestne2 : rest ≠ [] := by
      intro h0
      rw [h0] at hrne
      simp at hrne
    have hlastR : ∀ c2, (rest.dropWhile pyWsChar).getLast? = some c2 → pyWsChar c2 = false := by
      intro c2 h2
      apply hlast
      rw [hrestne hrestne2, ← getLast?_dropWhile_ws rest hrne]
      exact h2
    obtain ⟨h2, t2, heq, ht2, hh2⟩ := ih hlastR
    have hheadR : ∀ c2, (rest.dropWhile pyWsChar).head? = some c2 → pyWsChar c2 = false :=
      fun c2 hx => dropWhile_head_not_ws rest c2 hx
    have hh2app := hh2 hheadR hrne
    refine ⟨[], h2 :: t2, ?_, ?_, ?_⟩
    · rw [sentGo, if_pos hcond, heq]
    · intro p hp
      rcases List.mem_cons.mp hp with h | h
      · exact h ▸ hh2app
      · exact ht2 p h
    · intro hhead _
      have := hhead c rfl
      rw [hwc] at this
      exact absurd this (by simp)
  | case3 prev c rest hcond hnil ih =>
    intro _
    refine ⟨[c], [], ?_, by simp, ?_⟩
    · rw [sentGo, if_neg hcond, hnil]
    · intro hhead _
      exact ⟨by simp, fun c2 hc2 => by
        simp only [List.head?_cons, Option.some.injEq] at hc2
        exact hc2 ▸ hhead c rfl⟩
  | case4 prev c rest hcond p ps hps ih =>
    intro hlast
    have hlastR : ∀ c2, rest.getLast? = some c2 → pyWsChar c2 = false := by
      intro c2 h2
      apply hlast
      have hne : rest ≠ [] := by
        intro h0
        rw [h0] at h2
        simp at h2
      rw [getLast?_cons_of_ne_nil c rest hne]
      exact h2
    obtain ⟨h2, t2, heq, ht2, _⟩ := ih hlastR
    have hinj : p = h2 ∧ ps = t2 := by
      have hcc : p :: ps = h2 :: t2 := hps ▸ heq
      exact ⟨by injection hcc, by injection hcc⟩
    refine ⟨c :: p, ps, ?_, ?_, ?_⟩
    · rw [sentGo, if_neg hcond, hps]
    · intro q hq
      exact ht2 q (hinj.2 ▸ hq)
    · intro hhead _
      exact ⟨by simp, fun c2 hc2 => by
        simp only [List.head?_cons, Option.some.injEq] at hc2
        exact hc2 ▸ hhead c rfl⟩

theorem mem_of_head? {α : Type} (l : List α) (c : α) (h : l.head? = some c) : c ∈ l := by
  cases l with
  | nil => simp at h
  | cons a t =>
    simp only [List.head?_cons, Option.some.injEq] at h
    simp [h]

theorem chunkLoop_parts (maxc : Nat) :
    ∀ (ss : List (List Char)) (chunk : List Char),
      (∀ s ∈ ss, ∃ c, s.head? = some c ∧ pyWsChar c = false) →
      (chunk = [] ∨ ∃ c ∈ chunk, pyWsChar c = false) →
      ∀ p ∈ chunkLoop maxc ss chunk,
        ∃ x c, p = stripL x ∧ c ∈ x ∧ pyWsChar c = false := by
  intro ss
  induction ss with
  | nil =>
    intro chunk _ hinv p hp
    rw [chunkLoop] at hp
    cases hce : chunk.isEmpty with
    | true => simp [hce] at hp
    | false =>
      simp only [hce, Bool.false_eq_true, if_false, List.mem_singleton] at hp
      rcases hinv with h0 | ⟨c, hc, hcw⟩
      · rw [h0] at hce
        simp at hce
      · exact ⟨chunk, c, hp, hc, hcw⟩
  | cons s rest ih =>
    intro chunk hss hinv p hp
    simp only [chunkLoop] at hp
    obtain ⟨c, hc_head, hc_ws⟩ := hss s (by simp)
    have hcs : c ∈ s := mem_of_head? s c hc_head
    have hcmem : c ∈ chunk ++ s ++ [' '] := by
      simp [List.mem_append, hcs]
    have hrest : ∀ t ∈ rest, ∃ c2, t.head? = some c2 ∧ pyWsChar c2 = false :=
      fun t ht => hss t (by simp [ht])
    by_cases hlen : (chunk ++ s ++ [' ']).length > maxc
    · rw [if_pos hlen] at hp
      rcases List.mem_cons.mp hp with h | h
      · exact ⟨chunk ++ s ++ [' '], c, h, hcmem, hc_ws⟩
      · exact ih [] hrest (Or.inl rfl) p h
    · rw [if_neg hlen] at hp
      exact ih (chunk ++ s ++ [' ']) hrest (Or.inr ⟨c, hcmem, hc_ws⟩) p hp

theorem processSegs_parts (maxc : Nat) :
    ∀ (segs : List (List Char)) (p : List Char), p ∈ processSegs maxc segs →
      p ≠ [] ∧ stripL p = p := by
  intro segs
  induction segs with
  | nil => intro p hp; rw [processSegs] at hp; simp at hp
  | cons seg rest ih =>
    intro p hp
    simp only [processSegs] at hp
    cases hse : (stripL seg).isEmpty with
    | true =>
      rw [hse] at hp
      simp only [if_true] at hp
      exact ih p hp
    | false =>
      rw [hse] at hp
      simp only [Bool.false_eq_true, if_false] at hp
      have hsne : stripL seg ≠ [] := by
        intro h0
        rw [h0] at hse
        simp at hse
      by_cases hlen : (stripL seg).length < maxc
      · rw [if_pos hlen] at hp
        rcases List.mem_cons.mp hp with h | h
        · exact h ▸ ⟨hsne, stripL_idem seg⟩
        · exact ih p h
      · rw [if_neg hlen] at hp
        rcases List.mem_append.mp hp with h | h
        · obtain ⟨h2, t2, heq, ht2, hh2⟩ :=
            sentGo_parts '\x00' (stripL seg) (fun c hc => stripL_getLast_not_ws seg c hc)
          have hh2app := hh2 (fun c hc => stripL_head_not_ws seg c hc) hsne
          have hparts : ∀ q ∈ sentSplit (stripL seg),
              ∃ c, q.head? = some c ∧ pyWsChar c = false := by
            intro q hq
            rw [sentSplit, heq] at hq
            have hqok : q ≠ [] ∧ ∀ c, q.head? = some c → pyWsChar c = false := by
              rcases List.mem_cons.mp hq with h3 | h3
              · exact h3 ▸ hh2app
              · exact ht2 q h3
            cases hq2 : q with
            | nil => exact absurd hq2 hqok.1
            | cons a t => exact ⟨a, rfl, hqok.2 a (by rw [hq2]; rfl)⟩
          obtain ⟨x, c, hpx, hcx, hcw⟩ := chunkLoop_parts maxc (sentSplit (stripL seg)) []
            hparts (Or.inl rfl) p h
          refine ⟨hpx ▸ stripL_ne_nil x c hcx hcw, ?_⟩
          rw [hpx, stripL_idem]
        · exact ih p h

theorem splitGo_no_occurrence :
    ∀ (fuel : Nat) (sep l : List Char), containsL sep l = false → splitGo sep fuel l = [l] := by
  intro fuel
  induction fuel with
  | zero =>
    intro sep l _
    cases l with
    | nil => rfl
    | cons c rest => rfl
  | succ fuel ih =>
    intro sep l h
    cases l with
    | nil => rfl
    | cons c rest =>
      rw [containsL] at h
      have h1 : sep.isPrefixOf (c :: rest) = false := by
        cases hx : sep.isPrefixOf (c :: rest) with
        | true => rw [hx] at h; simp at h
        | false => rfl
      have h2 : containsL sep rest = false := by
        cases hx : containsL sep rest with
        | true => rw [hx] at h; simp at h
        | false => rfl
      rw [splitGo, h1]
      simp only [Bool.and_false, Bool.false_eq_true, if_false]
      rw [ih sep rest h2]

/-! Helper lemmas about the embedded merge engine. -/

theorem mergeLoop_mem (d : List (Json × Json)) :
    ∀ (qs : List Json) (recs : List QuizRecord), mergeLoop d qs = some recs →
      ∀ q ∈ qs, ∃ r, processQuestion d q = some r ∧ r ∈ recs := by
  intro qs
  induction qs with
  | nil => intro recs _ q hq; simp at hq
  | cons q0 rest ih =>
    intro recs hm q hq
    rw [mergeLoop] at hm
    cases hp : processQuestion d q0 with
    | none => rw [hp] at hm; simp at hm
    | some r0 =>
      rw [hp] at hm
      rw [Option.map_eq_some'] at hm
      obtain ⟨recs0, hrec0, hcons⟩ := hm
      rcases List.mem_cons.mp hq with h | h
      · exact ⟨r0, h ▸ hp, by rw [← hcons]; simp⟩
      · obtain ⟨r, hr1, hr2⟩ := ih recs0 hrec0 q h
        exact ⟨r, hr1, by rw [← hcons]; simp [hr2]⟩

theorem mergeLoop_length (d : List (Json × Json)) :
    ∀ (qs : List Json) (recs : List QuizRecord), mergeLoop d qs = some recs →
      recs.length = qs.length := by
  intro qs
  induction qs with
  | nil =>
    intro recs hm
    rw [mergeLoop] at hm
    simp only [Option.some.injEq] at hm
    rw [← hm]
    rfl
  | cons q0 rest ih =>
    intro recs hm
    rw [mergeLoop] at hm
    cases hp : processQuestion d q0 with
    | none => rw [hp] at hm; simp at hm
    | some r0 =>
      rw [hp, Option.map_eq_some'] at hm
      obtain ⟨recs0, hrec0, hcons⟩ := hm
      rw [← hcons]
      simp [ih recs0 hrec0]

theorem processQuestion_qid (d : List (Json × Json)) (q : Json) (r : QuizRecord)
    (h : processQuestion d q = some r) : r.qid = jsonIdOf q := by
  cases q with
  | jobj fs =>
    simp only [processQuestion] at h
    by_cases hh : hashableJson ((objGet fs "id").getD Json.null) = true
    · rw [if_pos hh] at h
      cases he : explanation_of ((dictGetPy d ((objGet fs "id").getD Json.null)).getD (Json.jobj [])) with
      | none => rw [he] at h; exact absurd h (by simp)
      | some fe =>
        rw [he] at h
        simp only [Option.some.injEq] at h
        rw [← h]
        rfl
    · rw [if_neg hh] at h
      exact absurd h (by simp)
  | null => exact absurd h (by simp [processQuestion])
  | jbool b => exact absurd h (by simp [processQuestion])
  | jnum n => exact absurd h (by simp [processQuestion])
  | jstr s => exact absurd h (by simp [processQuestion])
  | jarr xs => exact absurd h (by simp [processQuestion])

theorem processQuestion_no_answer (d : List (Json × Json)) (q : Json) (r : QuizRecord)
    (h : processQuestion d q = some r)
    (habs : ∀ p ∈ d, pyEq p.1 (jsonIdOf q) = false) :
    r.answer_key = "N/A" ∧ r.explanation = Json.jstr "No explanation provided." := by
  cases q with
  | jobj fs =>
    have hid : jsonIdOf (Json.jobj fs) = (objGet fs "id").getD Json.null := rfl
    have hfind : dictGetPy d ((objGet fs "id").getD Json.null) = none := by
      rw [dictGetPy]
      have : d.reverse.find? (fun p => pyEq p.1 ((objGet fs "id").getD Json.null)) = none := by
        rw [List.find?_eq_none]
        intro x hx
        have := habs x (List.mem_reverse.mp hx)
        rw [hid] at this
        simp [this]
      rw [this]
      rfl
    simp only [processQuestion, hfind, Option.getD_none] at h
    by_cases hh : hashableJson ((objGet fs "id").getD Json.null) = true
    · rw [if_pos hh] at h
      rw [show explanation_of (Json.jobj []) = some (Json.jstr "No explanation provided.")
        from rfl] at h
      simp only [Option.some.injEq] at h
      rw [← h]
      exact ⟨rfl, rfl⟩
    · rw [if_neg hh] at h
      exact absurd h (by simp)
  | null => exact absurd h (by simp [processQuestion])
  | jbool b => exact absurd h (by simp [processQuestion])
  | jnum n => exact absurd h (by simp [processQuestion])
  | jstr s => exact absurd h (by simp [processQuestion])
  | jarr xs => exact absurd h (by simp [processQuestion])

theorem rel_sorted_orderedInsert {α : Type} (P : α → Prop) (r : α → α → Prop)
    [DecidableRel r]
    (tot : ∀ a b, P a → P b → r a b ∨ r b a)
    (tr : ∀ a b c, P a → P b → P c → r a b → r b c → r a c)
    (a : α) (ha : P a) :
    ∀ (l : List α), (∀ x ∈ l, P x) → l.Sorted r → (l.orderedInsert r a).Sorted r := by
  intro l
  induction l with
  | nil =>
    intro _ _
    simp [List.orderedInsert, List.sorted_singleton]
  | cons b t ih =>
    intro hP hs
    rw [List.orderedInsert]
    by_cases hab : r a b
    · rw [if_pos hab]
      rw [List.sorted_cons]
      refine ⟨?_, hs⟩
      intro x hx
      rcases List.mem_cons.mp hx with h | h
      · exact h ▸ hab
      · have hbx := (List.sorted_cons.mp hs).1 x h
        exact tr a b x ha (hP b (by simp)) (hP x (by simp [h])) hab hbx
    · rw [if_neg hab]
      rw [List.sorted_cons]
      constructor
      · intro x hx
        rcases (List.mem_orderedInsert r).mp hx with h | h
        · rcases tot a b ha (hP b (by simp)) with h2 | h2
          · exact absurd h2 hab
          · exact h ▸ h2
        · exact (List.sorted_cons.mp hs).1 x h
      · exact ih (fun x hx => hP x (by simp [hx])) (List.sorted_cons.mp hs).2

theorem rel_sorted_insertionSort {α : Type} (P : α → Prop) (r : α → α → Prop)
    [DecidableRel r]
    (tot : ∀ a b, P a → P b → r a b ∨ r b a)
    (tr : ∀ a b c, P a → P b → P c → r a b → r b c → r a c) :
    ∀ (l : List α), (∀ x ∈ l, P x) → (l.insertionSort r).Sorted r := by
  intro l
  induction l with
  | nil => intro _; simp [List.insertionSort]
  | cons a t ih =>
    intro hP
    rw [List.insertionSort]
    refine rel_sorted_orderedInsert P r tot tr a (hP a (by simp)) _ ?_
      (ih (fun x hx => hP x (by simp [hx])))
    intro x hx
    exact hP x (by simp [(List.perm_insertionSort r t).mem_iff.mp hx])

theorem pySortById_perm (l out : List QuizRecord) (h : pySortById l = some out) :
    out.Perm l := by
  rw [pySortById] at h
  by_cases hs : idsSortable l = true
  · rw [if_pos hs] at h
    simp only [Option.some.injEq] at h
    exact h ▸ List.perm_insertionSort recLe l
  · rw [if_neg hs] at h
    exact absurd h (by simp)

theorem isIntKeyB_shape (r : QuizRecord) (h : isIntKeyB r = true) :
    ∃ x, recKey r = some (Sum.inl x) := by
  rw [isIntKeyB] at h
  rcases hk : recKey r with _ | k
  · rw [hk] at h
    simp at h
  · cases k with
    | inl x => exact ⟨x, rfl⟩
    | inr x =>
      rw [hk] at h
      simp at h

theorem isStrKeyB_shape (r : QuizRecord) (h : isStrKeyB r = true) :
    ∃ x, recKey r = some (Sum.inr x) := by
  rw [isStrKeyB] at h
  rcases hk : recKey r with _ | k
  · rw [hk] at h
    simp at h
  · cases k with
    | inl x =>
      rw [hk] at h
      simp at h
    | inr x => exact ⟨x, rfl⟩

theorem recLe_total_int (a b : QuizRecord)
    (ha : isIntKeyB a = true) (hb : isIntKeyB b = true) : recLe a b ∨ recLe b a := by
  obtain ⟨x, hx⟩ := isIntKeyB_shape a ha
  obtain ⟨y, hy⟩ := isIntKeyB_shape b hb
  rcases Int.le_total x y with h | h
  · exact Or.inl (by rw [recLe, recLeB, hx, hy]; simp [h])
  · exact Or.inr (by rw [recLe, recLeB, hx, hy]; simp [h])

theorem recLe_trans_int (a b c : QuizRecord)
    (ha : isIntKeyB a = true) (hb : isIntKeyB b = true) (hc : isIntKeyB c = true)
    (h1 : recLe a b) (h2 : recLe b c) : recLe a c := by
  obtain ⟨x, hx⟩ := isIntKeyB_shape a ha
  obtain ⟨y, hy⟩ := isIntKeyB_shape b hb
  obtain ⟨z, hz⟩ := isIntKeyB_shape c hc
  rw [recLe, recLeB, hx, hy] at h1
  rw [recLe, recLeB, hy, hz] at h2
  rw [recLe, recLeB, hx, hz]
  simp only [decide_eq_true_eq] at h1 h2 ⊢
  exact le_trans h1 h2

theorem recLe_total_str (a b : QuizRecord)
    (ha : isStrKeyB a = true) (hb : isStrKeyB b = true) : recLe a b ∨ recLe b a := by
  obtain ⟨x, hx⟩ := isStrKeyB_shape a ha
  obtain ⟨y, hy⟩ := isStrKeyB_shape b hb
  rcases le_total x y with h | h
  · exact Or.inl (by rw [recLe, recLeB, hx, hy]; simp [h])
  · exact Or.inr (by rw [recLe, recLeB, hx, hy]; simp [h])

theorem recLe_trans_str (a b c : QuizRecord)
    (ha : isStrKeyB a = true) (hb : isStrKeyB b = true) (hc : isStrKeyB c = true)
    (h1 : recLe a b) (h2 : recLe b c) : recLe a c := by
  obtain ⟨x, hx⟩ := isStrKeyB_shape a ha
  obtain ⟨y, hy⟩ := isStrKeyB_shape b hb
  obtain ⟨z, hz⟩ := isStrKeyB_shape c hc
  rw [recLe, recLeB, hx, hy] at h1
  rw [recLe, recLeB, hy, hz] at h2
  rw [recLe, recLeB, hx, hz]
  simp only [decide_eq_true_eq] at h1 h2 ⊢
  exact le_trans h1 h2

theorem pySortById_sorted (l out : List QuizRecord) (h : pySortById l = some out) :
    out.Sorted recLe := by
  rw [pySortById] at h
  by_cases hs : idsSortable l = true
  · rw [if_pos hs] at h
    simp only [Option.some.injEq] at h
    subst h
    cases l with
    | nil => simp [List.insertionSort]
    | cons a t =>
      cases t with
      | nil => simp [List.insertionSort, List.orderedInsert, List.sorted_singleton]
      | cons b t2 =>
        rw [idsSortable] at hs
        simp only [Bool.and_eq_true, Bool.or_eq_true] at hs
        rcases hs.2 with hint | hstr
        · refine rel_sorted_insertionSort (fun x => isIntKeyB x = true) recLe
            recLe_total_int recLe_trans_int _ ?_
          intro x hx
          exact (List.all_eq_true.mp hint) x hx
        · refine rel_sorted_insertionSort (fun x => isStrKeyB x = true) recLe
            recLe_total_str recLe_trans_str _ ?_
          intro x hx
          exact (List.all_eq_true.mp hstr) x hx
  · rw [if_neg hs] at h
    exact absurd h (by simp)

theorem merge_core_elim (qraw araw : Json) (out : List QuizRecord)
    (hm : merge_json_data_core (some qraw) (some araw) = some out) :
    ∃ ansItems ansDict qItems recs,
      pyIterate araw = some ansItems ∧
      buildAnsDict ansItems = some ansDict ∧
      pyIterate (loadQuestions qraw) = some qItems ∧
      mergeLoop ansDict qItems = some recs ∧
      pySortById recs = some out := by
  rw [merge_json_data_core] at hm
  split at hm
  · exact absurd hm (by simp)
  · rename_i ansItems h1
    split at hm
    · exact absurd hm (by simp)
    · rename_i ansDict h2
      split at hm
      · exact absurd hm (by simp)
      · rename_i qItems h3
        split at hm
        · exact absurd hm (by simp)
        · rename_i recs h4
          exact ⟨ansItems, ansDict, qItems, recs, h1, h2, h3, h4, hm⟩

/-! The claims. -/

/-- C1: for every question object whose id is present in the question
collection but matches no id in the answer collection, the merged record has
`answer_key = "N/A"` and `explanation = "No explanation provided."`, and no
exception is raised for that record (the merge produces a record for it). -/
theorem C1_missing_answer_falls_back
    (qraw araw : Json) (out : List QuizRecord)
    (qs ansItems : List Json) (ansDict : List (Json × Json)) (q : Json)
    (hm : merge_json_data_core (some qraw) (some araw) = some out)
    (hai : pyIterate araw = some ansItems)
    (hd : buildAnsDict ansItems = some ansDict)
    (hqs : pyIterate (loadQuestions qraw) = some qs)
    (hq : q ∈ qs)
    (habs : ∀ p ∈ ansDict, pyEq p.1 (jsonIdOf q) = false) :
    ∃ r, r ∈ out ∧ r.qid = jsonIdOf q ∧ r.answer_key = "N/A" ∧
      r.explanation = Json.jstr "No explanation provided." := by
  obtain ⟨ansItems2, ansDict2, qItems2, recs, h1, h2, h3, h4, h5⟩ :=
    merge_core_elim qraw araw out hm
  rw [hai] at h1
  injection h1 with h1
  subst h1
  rw [hd] at h2
  injection h2 with h2
  subst h2
  rw [hqs] at h3
  injection h3 with h3
  subst h3
  obtain ⟨r, hr1, hr2⟩ := mergeLoop_mem ansDict qs recs h4 q hq
  have hmem : r ∈ out := (pySortById_perm recs out h5).mem_iff.mpr hr2
  obtain ⟨hak, hex⟩ := processQuestion_no_answer ansDict q r hr1 habs
  exact ⟨r, hmem, processQuestion_qid ansDict q r hr1, hak, hex⟩

/-- C1 witness: a question with id 7 and an empty answer collection. -/
theorem C1_missing_answer_falls_back_w :
    ∃ r, r ∈ merge_json_data (some (.jarr [.jobj [("id", .jnum 7)]])) (some (.jarr [])) ∧
      r.qid = jsonIdOf (.jobj [("id", .jnum 7)]) ∧ r.answer_key = "N/A" ∧
      r.explanation = Json.jstr "No explanation provided." :=
  C1_missing_answer_falls_back (.jarr [.jobj [("id", .jnum 7)]]) (.jarr []) _
    [.jobj [("id", .jnum 7)]] [] [] (.jobj [("id", .jnum 7)])
    rfl rfl rfl rfl (by simp) (by simp)

/-- C2: whenever the merge succeeds, the output has exactly one record per
element of the question list (it is a permutation of the per-question merged
records, and in particular every question id appears), and it is sorted
ascending by the id sort key. -/
theorem C2_merge_complete_and_sorted
    (qraw araw : Json) (out : List QuizRecord)
    (hm : merge_json_data_core (some qraw) (some araw) = some out) :
    merge_json_data (some qraw) (some araw) = out ∧
    ∃ qs ansItems ansDict recs,
      pyIterate (loadQuestions qraw) = some qs ∧
      pyIterate araw = some ansItems ∧
      buildAnsDict ansItems = some ansDict ∧
      mergeLoop ansDict qs = some recs ∧
      out.Perm recs ∧
      out.length = qs.length ∧
      out.Sorted recLe ∧
      (∀ q ∈ qs, ∃ r, r ∈ out ∧ r.qid = jsonIdOf q) := by
  obtain ⟨ansItems, ansDict, qs, recs, h1, h2, h3, h4, h5⟩ :=
    merge_core_elim qraw araw out hm
  have hperm : out.Perm recs := pySortById_perm recs out h5
  constructor
  · rw [merge_json_data, hm]
    rfl
  · have hlen : out.length = qs.length := by
      rw [hperm.length_eq]
      exact mergeLoop_length ansDict qs recs h4
    have hall : ∀ q ∈ qs, ∃ r, r ∈ out ∧ r.qid = jsonIdOf q := by
      intro q hq
      obtain ⟨r, hr1, hr2⟩ := mergeLoop_mem ansDict qs recs h4 q hq
      exact ⟨r, hperm.mem_iff.mpr hr2, processQuestion_qid ansDict q r hr1⟩
    exact ⟨qs, ansItems, ansDict, recs, h3, h1, h2, h4, hperm, hlen,
      pySortById_sorted recs out h5, hall⟩

/-- C2 witness: two questions with ids 2 and 1 and an empty answer
collection; the merge succeeds and the sorted output is as stated. -/
theorem C2_merge_complete_and_sorted_w :
    merge_json_data (some (.jarr [.jobj [("id", .jnum 2)], .jobj [("id", .jnum 1)]]))
        (some (.jarr [])) =
      [⟨.jnum 1, .jstr "", .jobj [], .jstr "", "N/A", .jstr "No explanation provided."⟩,
       ⟨.jnum 2, .jstr "", .jobj [], .jstr "", "N/A", .jstr "No explanation provided."⟩] :=
  (C2_merge_complete_and_sorted (.jarr [.jobj [("id", .jnum 2)], .jobj [("id", .jnum 1)]])
    (.jarr []) _ rfl).1

/-- C3: answer-label normalisation reads `solution`, falls back to `answer`
when the primary is absent, strips parentheses, trims and uppercases; the
inputs `"(B)"`, `" b "` and `"b"` all normalise to `"B"`, and an absent
answer normalises to `"N/A"`. -/
theorem C3_answer_normalization :
    normalize_answer (.jobj [("solution", .jstr "(B)")]) = "B" ∧
    normalize_answer (.jobj [("solution", .jstr " b ")]) = "B" ∧
    normalize_answer (.jobj [("answer", .jstr "b")]) = "B" ∧
    normalize_answer (.jobj []) = "N/A" ∧
    (∀ (fs : List (String × Json)) (v : Json),
      objGet fs "solution" = some v → v.truthy = true → rawAnswer (.jobj fs) = v) ∧
    (∀ (fs : List (String × Json)) (v : Json),
      objGet fs "solution" = none → objGet fs "answer" = some v → v.truthy = true →
        rawAnswer (.jobj fs) = v) ∧
    (∀ s : String, s.data ≠ [] →
      normalize_answer (.jobj [("solution", .jstr s)]) =
        pyUpper (pyStrip (pyReplace (pyReplace s "(" "") ")" ""))) := by
  refine ⟨rfl, rfl, rfl, rfl, ?_, ?_, ?_⟩
  · intro fs v hsol htr
    rw [rawAnswer, jsonGetD, hsol, Option.getD_some, pyOr, if_pos htr]
  · intro fs v hsol hans htr
    rw [rawAnswer, jsonGetD, hsol, Option.getD_none, jsonGetD, hans, Option.getD_some]
    rw [pyOr, if_neg (by simp [Json.truthy]), pyOr, if_pos htr]
  · intro s hs
    rw [normalize_answer]
    rw [show rawAnswer (.jobj [("solution", .jstr s)]) = .jstr s from by
      rw [rawAnswer, jsonGetD, show objGet [("solution", .jstr s)] "solution" =
        some (.jstr s) from rfl, Option.getD_some, pyOr,
        if_pos (by simp [Json.truthy, hs])]]
    rfl

/-- C3 witness: the fallback clause applied to an object carrying only an
`answer` field. -/
theorem C3_answer_normalization_w :
    rawAnswer (.jobj [("answer", .jstr "b")]) = .jstr "b" :=
  C3_answer_normalization.2.2.2.2.2.1 [("answer", .jstr "b")] (.jstr "b") rfl rfl (by decide)

/-- C4 counterexample: a question collection whose single question lacks its
id — malformed per the claim — does not make the merge fail: the function
returns a non-empty merged list whose record carries a `null` id. -/
theorem C4_counterexample_lone_missing_id :
    merge_json_data (some (.jarr [.jobj [("question", .jstr "Q1")]])) (some (.jarr [])) =
      [⟨.null, .jstr "Q1", .jobj [], .jstr "", "N/A", .jstr "No explanation provided."⟩] ∧
    merge_json_data (some (.jarr [.jobj [("question", .jstr "Q1")]])) (some (.jarr [])) ≠
      [] := by
  constructor
  · rfl
  · rw [show merge_json_data (some (.jarr [.jobj [("question", .jstr "Q1")]]))
      (some (.jarr [])) =
      [⟨.null, .jstr "Q1", .jobj [], .jstr "", "N/A", .jstr "No explanation provided."⟩]
      from rfl]
    simp

/-- C4 amended: whenever the merge raises (unparseable collection, or a
malformed record that actually triggers an exception — a missing question id
only does so once the final sort compares its `null` id against another id,
e.g. with two or more questions), `merge_json_data` reports the single
collection-level error and returns the empty list, never a partial merge. -/
theorem C4_merge_failure_yields_empty :
    (∀ (q a : Option Json), merge_json_data_core q a = none → merge_json_data q a = []) ∧
    merge_json_data none (some (.jarr [])) = [] ∧
    merge_json_data
      (some (.jarr [.jobj [("question", .jstr "Q1")], .jobj [("id", .jnum 1)]]))
      (some (.jarr [])) = [] := by
  refine ⟨?_, rfl, rfl⟩
  intro q a h
  rw [merge_json_data, h]
  rfl

/-- C4 witness: an unparseable question file yields the empty list. -/
theorem C4_merge_failure_yields_empty_w :
    merge_json_data none (some (.jarr [])) = [] :=
  C4_merge_failure_yields_empty.1 none (some (.jarr [])) rfl

/-- C5: the documented scenario — question id 1 with options a/b, answer
`solution = "(a)"` and a structured explanation — merges to a record with
`answer_key = "A"` whose explanation splits into a main segment containing
"Because X" and a non-empty separable tips segment containing
"Remember this". -/
theorem C5_merge_scenario :
    merge_json_data
      (some (.jarr [.jobj [("id", .jnum 1), ("question", .jstr "Q1 text"),
        ("options", .jobj [("a", .jstr "X"), ("b", .jstr "Y")])]]))
      (some (.jarr [.jobj [("id", .jnum 1), ("solution", .jstr "(a)"),
        ("explanation", .jobj [("exp_details", .jstr "Because X"),
          ("important_tips", .jstr "Remember this")])]])) =
      [⟨.jnum 1, .jstr "Q1 text", .jobj [("a", .jstr "X"), ("b", .jstr "Y")], .jstr "",
        "A", .jstr "Because X ||TIPS|| Remember this"⟩] ∧
    strContains (splitTips "Because X ||TIPS|| Remember this").1 "Because X" = true ∧
    strContains (splitTips "Because X ||TIPS|| Remember this").2 "Remember this" = true ∧
    (splitTips "Because X ||TIPS|| Remember this").2 ≠ "" :=
  ⟨rfl, by decide, by decide, by decide⟩

/-- C6 counterexample: on the documented input the detector's rows are not
`("I","Alpha","Beta")` and `("II","Gamma","Delta")` — the regex starts its
first match at the header's `II.`. -/
theorem C6_counterexample_first_row :
    tableTriples "Match List I with List II. I. Alpha - Beta II. Gamma - Delta" ≠
      [("I", "Alpha", "Beta"), ("II", "Gamma", "Delta")] ∧
    matchFindAll "Match List I with List II. I. Alpha - Beta II. Gamma - Delta" =
      [("II", "I. Alpha", "Beta"), ("II", "Gamma", "Delta")] := by
  constructor
  · decide
  · decide

/-- C6 amended: the cue word "Match" is present and the pattern matches, so a
two-row table (not a plain paragraph) is produced, but its rows are
`("II","I. Alpha","Beta")` and `("II","Gamma","Delta")`: the greedy marker of
the regex captures the header's `II.` as the first row label, leaving intro
text "Match List I with List". -/
theorem C6_table_detection_amended :
    question_block "Match List I with List II. I. Alpha - Beta II. Gamma - Delta" =
      .table "Match List I with List"
        [("II", "I. Alpha", "Beta"), ("II", "Gamma", "Delta")] "" := by
  decide

/-- C7: a question text matching the pair pattern but containing none of the
case-sensitive cue words "Match", "List", "pairs" is rendered as a plain
formatted paragraph, never as a table. -/
theorem C7_no_cue_no_table (s : String)
    (_hmatch : matchFindAll s ≠ [])
    (hcue : hasCue s = false) :
    question_block s = .plain (format_question_text s) := by
  rw [question_block, hcue]
  simp

/-- C7 witness: "I. Alpha - Beta" matches the pair pattern, has no cue word,
and is rendered as a plain paragraph. -/
theorem C7_no_cue_no_table_w :
    question_block "I. Alpha - Beta" = .plain (format_question_text "I. Alpha - Beta") :=
  C7_no_cue_no_table "I. Alpha - Beta" (by decide) (by decide)

/-- C8 counterexample: the claim fails as stated — an input with leading
whitespace (no break cue, no list marker, length under the maximum) is
returned stripped, not verbatim; and a text containing the literal internal
marker `<SPLIT>` is split although no cue matches it. -/
theorem C8_counterexample_unstripped_input :
    smart_break_paragraphs " x" 350 [] = ["x"] ∧
    smart_break_paragraphs " x" 350 [] ≠ [" x"] ∧
    smart_break_paragraphs "a<SPLIT>b" 350 [] = ["a", "b"] := by
  refine ⟨by decide, ?_, by decide⟩
  rw [show smart_break_paragraphs " x" 350 [] = ["x"] from by decide]
  simp

/-- C8 amended: for a non-empty, already-stripped text that does not contain
the internal `<SPLIT>` marker, on which none of the list-marker or
forced-break substitutions fires (user keys included), and whose length is
under the maximum, `smart_break_paragraphs` returns that text as the single
paragraph; re-splitting a paragraph it already produced under those
conditions is therefore idempotent. -/
theorem C8_break_single_paragraph (text : String) (maxc : Nat) (keys : List String)
    (h0 : text ≠ "")
    (h1 : pyStrip text = text)
    (h2 : containsL splitMarkerL text.data = false)
    (h3 : subStrict strictBullet text = text)
    (h4 : subStrict strictParen text = text)
    (h5 : subStrict strictRoman text = text)
    (h6 : subConditional text = text)
    (h7 : subBreakKeywords keys text = text)
    (h8 : text.data.length < maxc) :
    smart_break_paragraphs text maxc keys = [text] := by
  have hstrip : stripL text.data = text.data := by
    have hx := congrArg String.data h1
    rw [pyStrip, data_mk] at hx
    exact hx
  have hne : text.data ≠ [] := by
    intro hd
    apply h0
    cases text with
    | mk l => exact (mk_eq_empty_iff l).mpr hd
  simp only [smart_break_paragraphs, if_neg h0, h3, h4, h5, h6, h7]
  rw [splitL, splitGo_no_occurrence _ _ _ h2]
  simp only [processSegs, hstrip]
  rw [show text.data.isEmpty = false from by
    cases htd : text.data with
    | nil => exact absurd htd hne
    | cons a t => rfl]
  simp only [Bool.false_eq_true, if_false, if_pos h8]
  cases text with
  | mk l => rfl

/-- C8 witness: a plain short text is returned whole. -/
theorem C8_break_single_paragraph_w :
    smart_break_paragraphs "hello world" 350 [] = ["hello world"] :=
  C8_break_single_paragraph "hello world" 350 [] (by decide) (by decide) (by decide)
    (by decide) (by decide) (by decide) (by decide) (by decide) (by decide)

/-- C9: `smart_highlight` is not idempotent: on "1999" (no user keywords) a
second application double-wraps the year emphasis. -/
theorem C9_highlight_not_idempotent :
    smart_highlight "1999" [] = "<b>1999</b>" ∧
    smart_highlight (smart_highlight "1999" []) [] = "<b><b>1999</b></b>" ∧
    smart_highlight (smart_highlight "1999" []) [] ≠ smart_highlight "1999" [] := by
  refine ⟨by decide, ?_, ?_⟩
  · rw [show smart_highlight "1999" [] = "<b>1999</b>" from by decide]
    decide
  · rw [show smart_highlight "1999" [] = "<b>1999</b>" from by decide]
    decide

/-- C10: every string returned by `smart_break_paragraphs` is non-empty and
carries no surrounding whitespace, and empty (falsy) input text yields the
empty list. -/
theorem C10_break_outputs_nonempty_trimmed :
    (∀ (text : String) (maxc : Nat) (keys : List String),
      ∀ p ∈ smart_break_paragraphs text maxc keys, p ≠ "" ∧ pyStrip p = p) ∧
    (∀ (maxc : Nat) (keys : List String), smart_break_paragraphs "" maxc keys = []) := by
  constructor
  · intro text maxc keys p hp
    simp only [smart_break_paragraphs] at hp
    by_cases hte : text = ""
    · rw [if_pos hte] at hp
      simp at hp
    · rw [if_neg hte] at hp
      simp only [List.mem_map] at hp
      obtain ⟨q, hq, hpq⟩ := hp
      obtain ⟨hqne, hqs⟩ := processSegs_parts maxc _ q hq
      constructor
      · rw [← hpq]
        intro hcontra
        exact hqne ((mk_eq_empty_iff q).mp hcontra)
      · rw [← hpq, pyStrip_mk, hqs]
  · intro maxc keys
    simp [smart_break_paragraphs]

/-- C10 witness: the output for "x y" is its own single paragraph, non-empty
and stripped, and the empty input yields the empty list. -/
theorem C10_break_outputs_nonempty_trimmed_w :
    (("x y" : String) ≠ "" ∧ pyStrip "x y" = "x y") ∧
    smart_break_paragraphs "" 350 [] = [] :=
  ⟨C10_break_outputs_nonempty_trimmed.1 "x y" 350 [] "x y" (by decide),
   C10_break_outputs_nonempty_trimmed.2 350 []⟩

end PdfApp
